import Mathlib

/-!
Shallow embedding of the real-time synchronization layer of the
CRUD-Mongodb-Express-Socket.io-Node.js repository.

The embedded code:
* the Socket.io session registry (`connectedUsers` in the main app file:
  the `io.on("connection")` handler and its `disconnect` handler),
* the Socket.io command handlers `all`, `add`, `update`, `delete`,
* the HTTP route handlers of `routes/todos.js` (list and create).

Conventions:
* `socket.emit`            is an emission with target `caller`,
* `socket.broadcast.emit`  is an emission with target `others`,
* `io.emit`                is an emission with target `everyone`
(these are exactly the semantics the repository's own architecture notes state).
The record store (MongoDB through the mongoose model `models/todos`, a file
that is not part of the sources here) is modelled as a list of records plus
an id counter and a logical clock supplying `createdAt`.
-/

namespace CrudSync

/-! ### Session registry

The main app keeps `connectedUsers`, a JS object mapping a client address to
the array of socket ids currently connected from that address.  We embed it
as an association list; a JS object has each key at most once, which is the
`RegWF` well-formedness predicate below together with the fact that the
code never stores an empty array (it deletes the key instead). -/

abbrev Addr := String

abbrev Sid := String

abbrev Reg := List (Addr × List Sid)

/-- Lookup of `connectedUsers[address]`. -/
def lookupReg : Reg → Addr → Option (List Sid)
  | [], _ => none
  | (a, l) :: rest, addr => if a = addr then some l else lookupReg rest addr

/-- Connection handler bookkeeping:
`if (!connectedUsers[address]) connectedUsers[address] = [];
connectedUsers[address].push(socket.id);`. -/
def regOpen : Reg → Addr → Sid → Reg
  | [], addr, sid => [(addr, [sid])]
  | (a, l) :: rest, addr, sid =>
    if a = addr then (a, l ++ [sid]) :: rest
    else (a, l) :: regOpen rest addr sid

/-- Disconnect handler bookkeeping:
`if (connectedUsers[address]) { connectedUsers[address] =
connectedUsers[address].filter(id => id !== socket.id);
if (connectedUsers[address].length === 0) delete connectedUsers[address]; }`. -/
def regClose : Reg → Addr → Sid → Reg
  | [], _, _ => []
  | (a, l) :: rest, addr, sid =>
    if a = addr then
      (if l.filter (fun x => x ≠ sid) = [] then rest
       else (a, l.filter (fun x => x ≠ sid)) :: rest)
    else (a, l) :: regClose rest addr sid

/-- The reported user count: `Object.keys(connectedUsers).length`. -/
def partyCount (s : Reg) : Nat := s.length

/-- Well-formedness every JS object satisfies by construction: each key occurs
once; and the code's own discipline: no key maps to an empty array. -/
def RegWF (s : Reg) : Prop :=
  (s.map Prod.fst).Nodup ∧ ∀ p ∈ s, p.2 ≠ []

/-! ### Traces of session opens and closes -/

/-- One session-lifecycle event: a socket with id `sid` from address `addr`
connects, or disconnects.  The disconnect handler always runs with the
`address` captured at connection time, so a close event carries the same
address as the matching open. -/
inductive REv
  | conn (addr : Addr) (sid : Sid)
  | disc (addr : Addr) (sid : Sid)
deriving DecidableEq, Repr

def regStep (s : Reg) : REv → Reg
  | .conn a i => regOpen s a i
  | .disc a i => regClose s a i

/-- Registry state after a trace of connects/disconnects, from the empty map. -/
def runReg (t : List REv) : Reg := t.foldl regStep []

/-- Specification-side per-address bookkeeping: the effect of one event on the
list of open session ids of address `addr`. -/
def sidStep (addr : Addr) (acc : List Sid) : REv → List Sid
  | .conn a i => if a = addr then acc ++ [i] else acc
  | .disc a i => if a = addr then acc.filter (fun x => x ≠ i) else acc

/-- The session ids opened from `addr` and not closed, after trace `t`. -/
def openSids (t : List REv) (addr : Addr) : List Sid :=
  t.foldl (sidStep addr) []

def evAddr : REv → Addr
  | .conn a _ => a
  | .disc a _ => a

/-- The distinct addresses mentioned by a trace. -/
def addrsOf (t : List REv) : List Addr := (t.map evAddr).dedup

/-- The total number of open sessions after trace `t`. -/
def totalOpenSessions (t : List REv) : Nat :=
  ((addrsOf t).map (fun a => (openSids t a).length)).sum

/-! ### Task-item records and the record store

Modelled from the spec: the Record Store collaborator (the mongoose model
file `models/todos.js` of the main app is not among the sources; only its
callers are).  Per the spec's §6 contract it performs create / read /
update / delete / list over task-item records; saving assigns a fresh
generated id and the creation timestamp. -/

structure Todo where
  id : Nat
  title : String
  description : Option String
  complete : Bool
  priority : String
  dueDate : Option String
  createdAt : Nat
deriving DecidableEq, Repr

structure DB where
  todos : List Todo
  nextId : Nat
  time : Nat
deriving DecidableEq, Repr

/-- Saving a freshly constructed document (`new Todo({...}); await todo.save()`):
the store assigns the generated id and the creation timestamp and returns the
saved record. -/
def saveNew (db : DB) (title : String) (description : Option String)
    (complete : Bool) (priority : String) (dueDate : Option String) : DB × Todo :=
  let t : Todo := ⟨db.nextId, title, description, complete, priority, dueDate, db.time⟩
  (⟨db.todos ++ [t], db.nextId + 1, db.time + 1⟩, t)

/-- `Todo.findById`-style lookup by id. -/
def findTodo (db : DB) (id : Nat) : Option Todo :=
  db.todos.find? (fun t => t.id = id)

/-! ### Events and emissions -/

/-- Delivery target of one `emit` call, per Socket.io semantics:
`socket.emit` reaches the calling session only, `socket.broadcast.emit`
reaches every open session except the caller, `io.emit` reaches every
open session. -/
inductive Target
  | caller
  | others
  | everyone
deriving DecidableEq, Repr

inductive Event
  | added (t : Todo)
  | updated (t : Todo)
  | deleted (id : Nat)
  | countEv (n : Nat)
  | errEv (msg : String)
  | allEv (ts : List Todo)
deriving DecidableEq, Repr

abbrev Emission := Target × Event

/-- The events a session `rcpt` receives from a list of emissions issued while
session `orig` is the calling session, in issue order. -/
def deliveredTo (orig rcpt : Sid) (ems : List Emission) : List Event :=
  ems.filterMap (fun em =>
    match em.1 with
    | .caller => if rcpt = orig then some em.2 else none
    | .others => if rcpt = orig then none else some em.2
    | .everyone => some em.2)

/-! ### Socket.io command handlers (main app) -/

/-- JS `x || d` on an optional string field (absent and the empty string are
falsy). -/
def jsOrStr (o : Option String) (d : String) : String :=
  match o with
  | none => d
  | some s => if s = "" then d else s

/-- JS `x || d` on an optional boolean field (absent and `false` are falsy). -/
def jsOrBool (o : Option Bool) (d : Bool) : Bool :=
  match o with
  | none => d
  | some b => if b then b else d

/-- Inbound payload of a create, on either surface.  The socket `add` handler
reads only `title`, `description` and `priority`; the HTTP `POST` handler
additionally reads `complete` and `dueDate`. -/
structure CreateInput where
  title : String
  description : Option String
  complete : Option Bool
  priority : Option String
  dueDate : Option String
deriving DecidableEq, Repr

/-- Partial update payload (`data.updates` of the socket `update` command). -/
structure UpdateFields where
  title : Option String
  description : Option String
  complete : Option Bool
  priority : Option String
  dueDate : Option String
deriving DecidableEq, Repr

/-- Effect of `findByIdAndUpdate(id, { $set: updates }, { new: true })` on the
matched record: each supplied field overwrites the stored one. -/
def applySet (t : Todo) (u : UpdateFields) : Todo :=
  { t with
    title := u.title.getD t.title
    description := match u.description with | none => t.description | some d => some d
    complete := u.complete.getD t.complete
    priority := u.priority.getD t.priority
    dueDate := match u.dueDate with | none => t.dueDate | some d => some d }

/-- Socket `add` handler: builds
`new Todo({ title: data.title, description: data.description, complete: false,
priority: data.priority || 'medium' })`, saves it, then emits the saved record
to the caller (`socket.emit("added", savedTodo)`) and to all others
(`socket.broadcast.emit("added", savedTodo)`).  The middle component is the
`savedTodo` local. -/
def socketAdd (db : DB) (data : CreateInput) : DB × Todo × List Emission :=
  let s := saveNew db data.title data.description false (jsOrStr data.priority "medium") none
  (s.1, s.2, [(Target.caller, Event.added s.2), (Target.others, Event.added s.2)])

/-- Socket `update` handler: `findByIdAndUpdate(data.id, { $set: data.updates },
{ new: true, runValidators: true })`; on a match it emits the updated record to
the caller and broadcasts it to the others, otherwise it emits
`error { message: "Todo not found" }` to the caller only. -/
def socketUpdate (db : DB) (id : Nat) (u : UpdateFields) : DB × List Emission :=
  match findTodo db id with
  | some t =>
    (⟨db.todos.map (fun x => if x.id = id then applySet t u else x), db.nextId, db.time⟩,
     [(Target.caller, Event.updated (applySet t u)),
      (Target.others, Event.updated (applySet t u))])
  | none => (db, [(Target.caller, Event.errEv "Todo not found")])

/-- Socket `delete` handler: `findByIdAndDelete(data.id)`; on a match it emits
`deleted { id: data.id }` to the caller and broadcasts it to the others,
otherwise it emits `error { message: "Todo not found" }` to the caller only. -/
def socketDelete (db : DB) (id : Nat) : DB × List Emission :=
  match findTodo db id with
  | some _ =>
    (⟨db.todos.filter (fun t => ¬ (t.id = id)), db.nextId, db.time⟩,
     [(Target.caller, Event.deleted id), (Target.others, Event.deleted id)])
  | none => (db, [(Target.caller, Event.errEv "Todo not found")])

/-- Descending order on creation time, the `.sort({ createdAt: -1 })` key. -/
def createdDescRel (a b : Todo) : Prop := b.createdAt ≤ a.createdAt

instance : DecidableRel createdDescRel :=
  fun a b => inferInstanceAs (Decidable (b.createdAt ≤ a.createdAt))

instance : IsTotal Todo createdDescRel :=
  ⟨fun a b => Nat.le_total b.createdAt a.createdAt⟩

instance : IsTrans Todo createdDescRel :=
  ⟨fun _ _ _ hab hbc => Nat.le_trans hbc hab⟩

/-- Result list of `Todo.find(filter).sort({ createdAt: -1 })`. -/
def sortByCreatedDesc (l : List Todo) : List Todo :=
  l.insertionSort createdDescRel

/-- Socket `all` handler: `Todo.find({}).sort({ createdAt: -1 })`, emitted back
to the caller only. -/
def socketAll (db : DB) : List Emission :=
  [(Target.caller, Event.allEv (sortByCreatedDesc db.todos))]

/-! ### HTTP route handlers (`routes/todos.js`) -/

/-- Whitespace trimming as performed by the express-validator `trim()`
sanitizer, written over the character list so that it evaluates by
reduction. -/
def trimString (s : String) : String :=
  ⟨(((s.data.dropWhile Char.isWhitespace).reverse.dropWhile
      Char.isWhitespace).reverse)⟩

/-- Express-validator chain of `POST /todos`: `title` is trimmed, must be
non-empty and 3–200 characters; `description` optional, trimmed, at most
1000 characters; `priority` optional, one of low / medium / high.  The
`complete` boolean and `dueDate` ISO-date checks are guaranteed by the typed
payload fields here. -/
def postValid (i : CreateInput) : Bool :=
  decide (trimString i.title ≠ "") && decide (3 ≤ (trimString i.title).length) &&
    decide ((trimString i.title).length ≤ 200) &&
    (match i.description with
     | none => true
     | some d => decide ((trimString d).length ≤ 1000)) &&
    (match i.priority with
     | none => true
     | some p => decide (p = "low" ∨ p = "medium" ∨ p = "high"))

structure PostResult where
  db : DB
  status : Nat
  data : Option Todo
  emitted : List Emission
deriving DecidableEq, Repr

/-- HTTP `POST /todos` handler: on validation failure it answers 400; otherwise
it builds `new Todo({ title, description, complete: req.body.complete || false,
priority: req.body.priority || 'medium', dueDate })`, saves it and answers
201 with the saved record as `data`.  The handler contains no Socket.io call,
so its emission list is empty. -/
def httpPostTodo (db : DB) (i : CreateInput) : PostResult :=
  if postValid i then
    let s := saveNew db (trimString i.title) (i.description.map trimString)
      (jsOrBool i.complete false) (jsOrStr i.priority "medium") i.dueDate
    ⟨s.1, 201, some s.2, []⟩
  else ⟨db, 400, none, []⟩

/-- HTTP `GET /todos` handler: optional `complete` / `priority` query filters
(`complete === 'true'` comparison; a priority filter is applied only when the
parameter is truthy), then `Todo.find(filter).sort({ createdAt: -1 })`. -/
def httpGetTodos (db : DB) (qcomplete qpriority : Option String) : Nat × List Todo :=
  let keep := fun (t : Todo) =>
    (match qcomplete with
     | none => true
     | some s => decide (t.complete = decide (s = "true"))) &&
    (match qpriority with
     | none => true
     | some p => if p = "" then true else decide (t.priority = p))
  (200, sortByCreatedDesc (db.todos.filter keep))

/-- Disconnect handler of the main app, apart from registry bookkeeping:
after removal it computes `userCount = Object.keys(connectedUsers).length`
and runs `io.emit("count", { count: userCount })`. -/
def disconnectHandler (s : Reg) (addr : Addr) (sid : Sid) : Reg × Emission :=
  let s' := regClose s addr sid
  (s', (Target.everyone, Event.countEv (partyCount s')))

/-- Connection handler of the main app, apart from registry bookkeeping:
it emits the new count to the connecting session and broadcasts it to all
other sessions. -/
def connectHandler (s : Reg) (addr : Addr) (sid : Sid) : Reg × List Emission :=
  let s' := regOpen s addr sid
  (s', [(Target.caller, Event.countEv (partyCount s')),
        (Target.others, Event.countEv (partyCount s'))])

/-! ### Registry lemmas -/

theorem lookupReg_eq_none_iff (s : Reg) (c : Addr) :
    lookupReg s c = none ↔ c ∉ s.map Prod.fst := by
  induction s with
  | nil => simp [lookupReg]
  | cons p rest ih =>
    obtain ⟨b, l⟩ := p
    by_cases hb : b = c
    · subst hb; simp [lookupReg]
    · simp [lookupReg, hb, ih, Ne.symm hb]

theorem mem_of_lookupReg {s : Reg} {c : Addr} {l : List Sid}
    (h : lookupReg s c = some l) : (c, l) ∈ s := by
  induction s with
  | nil => simp [lookupReg] at h
  | cons p rest ih =>
    obtain ⟨b, m⟩ := p
    by_cases hb : b = c
    · subst hb
      simp [lookupReg] at h
      subst h
      exact List.mem_cons_self _ _
    · simp [lookupReg, hb] at h
      exact List.mem_cons_of_mem _ (ih h)

theorem lookupReg_regOpen_self (s : Reg) (a : Addr) (i : Sid) :
    lookupReg (regOpen s a i) a = some (((lookupReg s a).getD []) ++ [i]) := by
  induction s with
  | nil => simp [regOpen, lookupReg]
  | cons p rest ih =>
    obtain ⟨b, l⟩ := p
    by_cases hb : b = a
    · subst hb; simp [regOpen, lookupReg]
    · simp [regOpen, lookupReg, hb, ih]

theorem lookupReg_regOpen_ne (s : Reg) (a : Addr) (i : Sid) (addr : Addr)
    (h : a ≠ addr) : lookupReg (regOpen s a i) addr = lookupReg s addr := by
  induction s with
  | nil => simp [regOpen, lookupReg, h]
  | cons p rest ih =>
    obtain ⟨b, l⟩ := p
    by_cases hb : b = a
    · subst hb; simp [regOpen, lookupReg, h]
    · simp [regOpen, lookupReg, hb, ih]

theorem regClose_of_lookup_none {s : Reg} {a : Addr} (i : Sid)
    (h : lookupReg s a = none) : regClose s a i = s := by
  induction s with
  | nil => simp [regClose]
  | cons p rest ih =>
    obtain ⟨b, l⟩ := p
    by_cases hb : b = a
    · subst hb; simp [lookupReg] at h
    · simp [lookupReg, hb] at h
      simp [regClose, hb, ih h]

theorem lookupReg_regClose_ne (s : Reg) (a : Addr) (i : Sid) (addr : Addr)
    (h : a ≠ addr) : lookupReg (regClose s a i) addr = lookupReg s addr := by
  induction s with
  | nil => simp [regClose]
  | cons p rest ih =>
    obtain ⟨b, l⟩ := p
    simp only [regClose]
    by_cases hb : b = a
    · rw [if_pos hb]
      by_cases hf : l.filter (fun x => x ≠ i) = []
      · rw [if_pos hf]
        have : b ≠ addr := hb ▸ h
        simp [lookupReg, this]
      · rw [if_neg hf]
        have : b ≠ addr := hb ▸ h
        simp [lookupReg, this]
    · rw [if_neg hb]
      simp only [lookupReg]
      by_cases hba : b = addr
      · rw [if_pos hba, if_pos hba]
      · rw [if_neg hba, if_neg hba]; exact ih

theorem getD_lookupReg_regClose_self {s : Reg} (hk : (s.map Prod.fst).Nodup)
    (a : Addr) (i : Sid) :
    (lookupReg (regClose s a i) a).getD [] =
      ((lookupReg s a).getD []).filter (fun x => x ≠ i) := by
  induction s with
  | nil => simp [regClose, lookupReg]
  | cons p rest ih =>
    obtain ⟨b, l⟩ := p
    simp only [List.map_cons, List.nodup_cons] at hk
    simp only [regClose]
    by_cases hb : b = a
    · rw [if_pos hb]
      subst hb
      by_cases hf : l.filter (fun x => x ≠ i) = []
      · rw [if_pos hf]
        have hnone : lookupReg rest b = none :=
          (lookupReg_eq_none_iff rest b).mpr hk.1
        have hlook : lookupReg ((b, l) :: rest) b = some l := by
          simp [lookupReg]
        rw [hnone, hlook]
        simpa using hf.symm
      · rw [if_neg hf]
        simp [lookupReg]
    · rw [if_neg hb]
      simp only [lookupReg, if_neg hb]
      exact ih hk.2

theorem mem_keys_regOpen {s : Reg} {a : Addr} {i : Sid} {c : Addr}
    (h : c ∈ (regOpen s a i).map Prod.fst) : c ∈ s.map Prod.fst ∨ c = a := by
  induction s with
  | nil =>
    simp [regOpen] at h
    exact Or.inr h
  | cons p rest ih =>
    obtain ⟨b, l⟩ := p
    simp only [regOpen] at h
    by_cases hb : b = a
    · rw [if_pos hb] at h
      simp only [List.map_cons, List.mem_cons] at h
      rcases h with h | h
      · exact Or.inl (by simp [h])
      · exact Or.inl (by simp [h])
    · rw [if_neg hb] at h
      simp only [List.map_cons, List.mem_cons] at h
      rcases h with h | h
      · exact Or.inl (by simp [h])
      · rcases ih h with h1 | h1
        · exact Or.inl (by simp [h1])
        · exact Or.inr h1

theorem keysNodup_regOpen {s : Reg} (a : Addr) (i : Sid)
    (h : (s.map Prod.fst).Nodup) : ((regOpen s a i).map Prod.fst).Nodup := by
  induction s with
  | nil => simp [regOpen]
  | cons p rest ih =>
    obtain ⟨b, l⟩ := p
    simp only [List.map_cons, List.nodup_cons] at h
    simp only [regOpen]
    by_cases hb : b = a
    · rw [if_pos hb]
      simp only [List.map_cons, List.nodup_cons]
      exact h
    · rw [if_neg hb]
      simp only [List.map_cons, List.nodup_cons]
      refine ⟨fun hmem => ?_, ih h.2⟩
      rcases mem_keys_regOpen hmem with h1 | h1
      · exact h.1 h1
      · exact hb h1

theorem keys_regClose_sublist (s : Reg) (a : Addr) (i : Sid) :
    ((regClose s a i).map Prod.fst).Sublist (s.map Prod.fst) := by
  induction s with
  | nil => simp [regClose]
  | cons p rest ih =>
    obtain ⟨b, l⟩ := p
    simp only [regClose]
    by_cases hb : b = a
    · rw [if_pos hb]
      by_cases hf : l.filter (fun x => x ≠ i) = []
      · rw [if_pos hf]
        exact List.sublist_cons_self b (rest.map Prod.fst)
      · rw [if_neg hf]
        simp only [List.map_cons]
        exact (List.Sublist.refl _).cons₂ b
    · rw [if_neg hb]
      simp only [List.map_cons]
      exact ih.cons₂ b

theorem vals_regOpen {s : Reg} (hv : ∀ p ∈ s, p.2 ≠ []) (a : Addr) (i : Sid) :
    ∀ p ∈ regOpen s a i, p.2 ≠ [] := by
  induction s with
  | nil =>
    intro p hp
    simp [regOpen] at hp
    subst hp; simp
  | cons q rest ih =>
    obtain ⟨b, l⟩ := q
    intro p hp
    simp only [regOpen] at hp
    by_cases hb : b = a
    · rw [if_pos hb] at hp
      simp only [List.mem_cons] at hp
      rcases hp with hp | hp
      · subst hp; simp
      · exact hv p (List.mem_cons_of_mem _ hp)
    · rw [if_neg hb] at hp
      simp only [List.mem_cons] at hp
      rcases hp with hp | hp
      · subst hp; exact hv _ (List.mem_cons_self _ _)
      · exact ih (fun q hq => hv q (List.mem_cons_of_mem _ hq)) p hp

theorem vals_regClose {s : Reg} (hv : ∀ p ∈ s, p.2 ≠ []) (a : Addr) (i : Sid) :
    ∀ p ∈ regClose s a i, p.2 ≠ [] := by
  induction s with
  | nil => intro p hp; simp [regClose] at hp
  | cons q rest ih =>
    obtain ⟨b, l⟩ := q
    intro p hp
    simp only [regClose] at hp
    by_cases hb : b = a
    · rw [if_pos hb] at hp
      by_cases hf : l.filter (fun x => x ≠ i) = []
      · rw [if_pos hf] at hp
        exact hv p (List.mem_cons_of_mem _ hp)
      · rw [if_neg hf] at hp
        simp only [List.mem_cons] at hp
        rcases hp with hp | hp
        · subst hp; exact hf
        · exact hv p (List.mem_cons_of_mem _ hp)
    · rw [if_neg hb] at hp
      simp only [List.mem_cons] at hp
      rcases hp with hp | hp
      · subst hp; exact hv _ (List.mem_cons_self _ _)
      · exact ih (fun q hq => hv q (List.mem_cons_of_mem _ hq)) p hp

theorem regWF_regStep {s : Reg} (h : RegWF s) (ev : REv) : RegWF (regStep s ev) := by
  cases ev with
  | conn a i => exact ⟨keysNodup_regOpen a i h.1, vals_regOpen h.2 a i⟩
  | disc a i => exact ⟨h.1.sublist (keys_regClose_sublist s a i), vals_regClose h.2 a i⟩

theorem regWF_foldl (t : List REv) : ∀ (s : Reg), RegWF s →
    RegWF (t.foldl regStep s) := by
  induction t with
  | nil => intro s hs; exact hs
  | cons ev t ih => intro s hs; exact ih _ (regWF_regStep hs ev)

theorem regWF_nil : RegWF ([] : Reg) := ⟨List.nodup_nil, by simp⟩

theorem regWF_runReg (t : List REv) : RegWF (runReg t) :=
  regWF_foldl t [] regWF_nil

theorem getD_lookup_regStep {s : Reg} (h : RegWF s) (ev : REv) (addr : Addr) :
    (lookupReg (regStep s ev) addr).getD [] =
      sidStep addr ((lookupReg s addr).getD []) ev := by
  cases ev with
  | conn a i =>
    by_cases ha : a = addr
    · subst ha; simp [regStep, sidStep, lookupReg_regOpen_self]
    · simp [regStep, sidStep, lookupReg_regOpen_ne s a i addr ha, ha]
  | disc a i =>
    by_cases ha : a = addr
    · subst ha; simp [regStep, sidStep, getD_lookupReg_regClose_self h.1]
    · simp [regStep, sidStep, lookupReg_regClose_ne s a i addr ha, ha]

theorem getD_lookup_foldl (t : List REv) : ∀ (s : Reg), RegWF s → ∀ addr,
    (lookupReg (t.foldl regStep s) addr).getD [] =
      t.foldl (sidStep addr) ((lookupReg s addr).getD []) := by
  induction t with
  | nil => intro s _ addr; rfl
  | cons ev t ih =>
    intro s hs addr
    have h1 := ih (regStep s ev) (regWF_regStep hs ev) addr
    rw [getD_lookup_regStep hs ev addr] at h1
    simpa [List.foldl_cons] using h1

theorem getD_lookup_runReg (t : List REv) (addr : Addr) :
    (lookupReg (runReg t) addr).getD [] = openSids t addr := by
  simpa [lookupReg] using getD_lookup_foldl t [] regWF_nil addr

theorem lookupReg_runReg (t : List REv) (addr : Addr) :
    lookupReg (runReg t) addr =
      if openSids t addr = [] then none else some (openSids t addr) := by
  have hg := getD_lookup_runReg t addr
  have hwf := regWF_runReg t
  cases hl : lookupReg (runReg t) addr with
  | none =>
    rw [hl] at hg
    simp only [Option.getD_none] at hg
    simp [← hg]
  | some l =>
    rw [hl] at hg
    simp only [Option.getD_some] at hg
    have hne : l ≠ [] := hwf.2 _ (mem_of_lookupReg hl)
    subst hg
    simp [hne]

theorem sidStep_of_ne {addr : Addr} {ev : REv} (h : evAddr ev ≠ addr)
    (acc : List Sid) : sidStep addr acc ev = acc := by
  cases ev with
  | conn a i => simp only [evAddr] at h; simp [sidStep, h]
  | disc a i => simp only [evAddr] at h; simp [sidStep, h]

theorem foldl_sidStep_of_not_mem {addr : Addr} : ∀ (t : List REv),
    addr ∉ t.map evAddr → ∀ acc, t.foldl (sidStep addr) acc = acc := by
  intro t
  induction t with
  | nil => intro _ acc; rfl
  | cons ev t ih =>
    intro h acc
    simp only [List.map_cons, List.mem_cons] at h
    push_neg at h
    rw [List.foldl_cons, sidStep_of_ne (fun he => h.1 he.symm), ih h.2]

theorem openSids_eq_nil_of_not_mem {t : List REv} {addr : Addr}
    (h : addr ∉ t.map evAddr) : openSids t addr = [] :=
  foldl_sidStep_of_not_mem t h []

theorem mem_keys_runReg_iff (t : List REv) (addr : Addr) :
    addr ∈ (runReg t).map Prod.fst ↔ openSids t addr ≠ [] := by
  have h := lookupReg_runReg t addr
  have hne := lookupReg_eq_none_iff (runReg t) addr
  constructor
  · intro hmem
    intro hnil
    rw [hnil] at h
    simp only [if_pos rfl] at h
    exact (hne.mp h) hmem
  · intro hnil
    by_contra hmem
    have h0 := hne.mpr hmem
    rw [h, if_neg hnil] at h0
    exact Option.some_ne_none _ h0

theorem sum_map_filter_eq {α : Type} (f : α → Nat) (p : α → Bool) :
    ∀ (M : List α), (∀ x ∈ M, p x = false → f x = 0) →
      ((M.filter p).map f).sum = (M.map f).sum := by
  intro M
  induction M with
  | nil => intro _; rfl
  | cons x M ih =>
    intro h
    have hM := ih (fun y hy => h y (List.mem_cons_of_mem _ hy))
    cases hp : p x with
    | true => simp [List.filter_cons, hp, hM]
    | false =>
      have h0 : f x = 0 := h x (List.mem_cons_self _ _) hp
      simp [List.filter_cons, hp, h0, hM]

theorem length_le_sum_map {α : Type} (f : α → Nat) :
    ∀ (L : List α), (∀ x ∈ L, 1 ≤ f x) → L.length ≤ (L.map f).sum := by
  intro L
  induction L with
  | nil => intro _; simp
  | cons x L ih =>
    intro h
    simp only [List.length_cons, List.map_cons, List.sum_cons]
    have h1 := h x (List.mem_cons_self _ _)
    have h2 := ih (fun y hy => h y (List.mem_cons_of_mem _ hy))
    omega

theorem length_lt_sum_map {α : Type} (f : α → Nat) :
    ∀ (L : List α), (∀ x ∈ L, 1 ≤ f x) → ∀ a ∈ L, 2 ≤ f a →
      L.length < (L.map f).sum := by
  intro L
  induction L with
  | nil => intro _ a ha; simp at ha
  | cons x L ih =>
    intro h a ha h2
    simp only [List.length_cons, List.map_cons, List.sum_cons]
    rcases List.mem_cons.mp ha with rfl | ha'
    · have hle := length_le_sum_map f L (fun y hy => h y (List.mem_cons_of_mem _ hy))
      omega
    · have hx := h x (List.mem_cons_self _ _)
      have hlt := ih (fun y hy => h y (List.mem_cons_of_mem _ hy)) a ha' h2
      omega

/-- Claim C2: after any trace of session opens and closes, the reported count
(`Object.keys(connectedUsers).length`) equals the number of distinct client
addresses holding at least one open session; and whenever some address holds
two or more simultaneous sessions, the count is strictly smaller than the
total number of open sessions, so it never equals the session total when
addresses repeat. -/
theorem partyCount_distinct_addresses (t : List REv) :
    partyCount (runReg t) =
      ((addrsOf t).filter (fun a => openSids t a ≠ [])).length ∧
    ((∃ a, 2 ≤ (openSids t a).length) →
      partyCount (runReg t) < totalOpenSessions t) := by
  have hperm : ((runReg t).map Prod.fst).Perm
      ((addrsOf t).filter (fun a => openSids t a ≠ [])) := by
    refine (List.perm_ext_iff_of_nodup (regWF_runReg t).1
      (((t.map evAddr).nodup_dedup).filter _)).mpr ?_
    intro c
    rw [mem_keys_runReg_iff]
    constructor
    · intro hc
      have hmem : c ∈ t.map evAddr := by
        by_contra hn
        exact hc (openSids_eq_nil_of_not_mem hn)
      simp [addrsOf, List.mem_filter, hmem, hc]
    · intro hc
      simp only [List.mem_filter] at hc
      simpa using hc.2
  have hlen : partyCount (runReg t) =
      ((addrsOf t).filter (fun a => openSids t a ≠ [])).length := by
    have h1 := hperm.length_eq
    simpa [partyCount, List.length_map] using h1
  refine ⟨hlen, ?_⟩
  rintro ⟨a, ha⟩
  have hanil : openSids t a ≠ [] := by
    intro h0
    rw [h0] at ha
    simp at ha
  have hmema : a ∈ (addrsOf t).filter (fun x => openSids t x ≠ []) := by
    have hmem : a ∈ t.map evAddr := by
      by_contra hn
      exact hanil (openSids_eq_nil_of_not_mem hn)
    simp [addrsOf, List.mem_filter, hmem, hanil]
  have hall : ∀ x ∈ (addrsOf t).filter (fun x => openSids t x ≠ []),
      1 ≤ (openSids t x).length := by
    intro x hx
    simp only [List.mem_filter] at hx
    have hxne : openSids t x ≠ [] := by simpa using hx.2
    have hpos := List.length_pos.mpr hxne
    omega
  have hlt := length_lt_sum_map (fun x => (openSids t x).length)
    ((addrsOf t).filter (fun x => openSids t x ≠ [])) hall a hmema ha
  have hzero : ∀ x ∈ addrsOf t, decide (openSids t x ≠ []) = false →
      (openSids t x).length = 0 := by
    intro x _ hfalse
    have hxnil : openSids t x = [] := by
      have hnn : ¬ (openSids t x ≠ []) := by simpa using hfalse
      exact Decidable.not_not.mp hnn
    simp [hxnil]
  have hsum := sum_map_filter_eq (fun x => (openSids t x).length)
    (fun x => decide (openSids t x ≠ [])) (addrsOf t) hzero
  rw [hlen]
  simp only [totalOpenSessions]
  rw [← hsum]
  exact hlt

/-- Witness for C2 at the trace in which two sessions open from address `a`
and one from address `b`: the hypothesis of the strictness clause holds and
the reported count of 2 is strictly below the 3 open sessions. -/
theorem partyCount_distinct_addresses_witness :
    (2 ≤ (openSids [REv.conn "a" "1", REv.conn "a" "2", REv.conn "b" "3"] "a").length) ∧
    partyCount (runReg [REv.conn "a" "1", REv.conn "a" "2", REv.conn "b" "3"]) <
      totalOpenSessions [REv.conn "a" "1", REv.conn "a" "2", REv.conn "b" "3"] :=
  ⟨by decide,
   (partyCount_distinct_addresses
     [REv.conn "a" "1", REv.conn "a" "2", REv.conn "b" "3"]).2 ⟨"a", by decide⟩⟩

/-- Claim C3: after any trace of opens and closes from the empty registry, an
address key is present in `connectedUsers` exactly when that address still has
at least one open session, and every stored entry is a non-empty session-id
list (the disconnect handler deletes the key instead of keeping an empty
array). -/
theorem registry_entry_iff_nonempty (t : List REv) (addr : Addr) :
    ((lookupReg (runReg t) addr ≠ none) ↔ openSids t addr ≠ []) ∧
    (∀ l, lookupReg (runReg t) addr = some l → l ≠ []) := by
  have h := lookupReg_runReg t addr
  constructor
  · constructor
    · intro hne hnil
      rw [hnil] at h
      simp only [if_pos rfl] at h
      exact hne h
    · intro hnil
      rw [h, if_neg hnil]
      exact Option.some_ne_none _
  · intro l hl
    exact (regWF_runReg t).2 _ (mem_of_lookupReg hl)

/-- Witness for C3 at the one-open trace: address `a` is present with the
non-empty list `["1"]`, and presence is equivalent to a non-empty open set. -/
theorem registry_entry_iff_nonempty_witness :
    lookupReg (runReg [REv.conn "a" "1"]) "a" = some ["1"] ∧
    openSids [REv.conn "a" "1"] "a" ≠ [] ∧ (["1"] : List Sid) ≠ [] := by
  refine ⟨by decide, ?_, ?_⟩
  · exact (registry_entry_iff_nonempty [REv.conn "a" "1"] "a").1.mp (by decide)
  · exact (registry_entry_iff_nonempty [REv.conn "a" "1"] "a").2 ["1"] (by decide)

theorem regClose_regClose (s : Reg) (a : Addr) (sid : Sid)
    (hk : (s.map Prod.fst).Nodup) :
    regClose (regClose s a sid) a sid = regClose s a sid := by
  induction s with
  | nil => rfl
  | cons p rest ih =>
    obtain ⟨b, l⟩ := p
    simp only [List.map_cons, List.nodup_cons] at hk
    simp only [regClose]
    by_cases hb : b = a
    · rw [if_pos hb]
      by_cases hfc : l.filter (fun x => x ≠ sid) = []
      · rw [if_pos hfc]
        exact regClose_of_lookup_none sid
          ((lookupReg_eq_none_iff rest a).mpr (hb ▸ hk.1))
      · rw [if_neg hfc]
        simp only [regClose]
        rw [if_pos hb]
        have hff : (l.filter (fun x => x ≠ sid)).filter (fun x => x ≠ sid) =
            l.filter (fun x => x ≠ sid) :=
          List.filter_eq_self.mpr (fun x hx => (List.mem_filter.mp hx).2)
        rw [hff, if_neg hfc]
    · rw [if_neg hb]
      simp only [regClose]
      rw [if_neg hb, ih hk.2]

theorem regClose_no_op (s : Reg) (a : Addr) (sid : Sid)
    (hv : ∀ p ∈ s, p.2 ≠ []) (hno : ∀ l, lookupReg s a = some l → sid ∉ l) :
    regClose s a sid = s := by
  induction s with
  | nil => rfl
  | cons p rest ih =>
    obtain ⟨b, l⟩ := p
    simp only [regClose]
    by_cases hb : b = a
    · have hsl : lookupReg ((b, l) :: rest) a = some l := by
        simp [lookupReg, hb]
      have hnot : sid ∉ l := hno l hsl
      have hfl : l.filter (fun x => x ≠ sid) = l := by
        apply List.filter_eq_self.mpr
        intro x hx
        simp only [decide_eq_true_eq]
        intro he
        exact hnot (he ▸ hx)
      rw [if_pos hb, hfl, if_neg (hv (b, l) (List.mem_cons_self _ _))]
    · rw [if_neg hb]
      rw [ih (fun p hp => hv p (List.mem_cons_of_mem _ hp))
        (fun l' hl' => hno l' (by simpa [lookupReg, hb] using hl'))]

/-- Claim C6: on a well-formed registry state (unique keys as in any JS
object), running the disconnect removal twice for the same session id leaves
the same state as running it once; and when the session id is not present
under its address (all stored entries being non-empty as the code maintains),
the removal is a no-op. -/
theorem close_idempotent (s : Reg) (a : Addr) (sid : Sid)
    (hk : (s.map Prod.fst).Nodup) :
    regClose (regClose s a sid) a sid = regClose s a sid ∧
    ((∀ p ∈ s, p.2 ≠ []) → (∀ l, lookupReg s a = some l → sid ∉ l) →
      regClose s a sid = s) :=
  ⟨regClose_regClose s a sid hk, fun hv hno => regClose_no_op s a sid hv hno⟩

/-- Witness for C6 at the state holding one session from address `a`: keys are
unique, double removal equals single removal, and removing an id that is not
present leaves the state unchanged. -/
theorem close_idempotent_witness :
    (([("a", ["1"])] : Reg).map Prod.fst).Nodup ∧
    regClose (regClose [("a", ["1"])] "a" "1") "a" "1" =
      regClose [("a", ["1"])] "a" "1" ∧
    regClose [("a", ["1"])] "a" "9" = [("a", ["1"])] := by
  refine ⟨by decide, ?_, ?_⟩
  · exact (close_idempotent [("a", ["1"])] "a" "1" (by decide)).1
  · exact (close_idempotent [("a", ["1"])] "a" "9" (by decide)).2
      (by decide) (by decide)

/-- Claim C7: opening a fresh session and then closing that same session
restores the registry state, hence the distinct-party count, and the `count`
event the disconnect handler broadcasts to the remaining sessions carries the
count from before the open. -/
theorem regClose_regOpen (s : Reg) (a : Addr) (sid : Sid)
    (hv : ∀ p ∈ s, p.2 ≠ []) (hf : ∀ p ∈ s, sid ∉ p.2) :
    regClose (regOpen s a sid) a sid = s := by
  induction s with
  | nil =>
    show regClose [(a, [sid])] a sid = []
    simp only [regClose]
    have h2 : ([sid] : List Sid).filter (fun x => x ≠ sid) = [] := by simp
    simp only [if_true]
    rw [if_pos h2]
  | cons p rest ih =>
    obtain ⟨b, l⟩ := p
    simp only [regOpen]
    by_cases hb : b = a
    · rw [if_pos hb]
      simp only [regClose]
      rw [if_pos hb]
      have hnot : sid ∉ l := hf (b, l) (List.mem_cons_self _ _)
      have hfl : (l ++ [sid]).filter (fun x => x ≠ sid) = l := by
        rw [List.filter_append]
        have h1 : l.filter (fun x => x ≠ sid) = l := by
          apply List.filter_eq_self.mpr
          intro x hx
          simp only [decide_eq_true_eq]
          intro he
          exact hnot (he ▸ hx)
        have h2 : ([sid] : List Sid).filter (fun x => x ≠ sid) = [] := by simp
        rw [h1, h2, List.append_nil]
      rw [hfl, if_neg (hv (b, l) (List.mem_cons_self _ _))]
    · rw [if_neg hb]
      simp only [regClose]
      rw [if_neg hb]
      rw [ih (fun p hp => hv p (List.mem_cons_of_mem _ hp))
        (fun p hp => hf p (List.mem_cons_of_mem _ hp))]

/-- Claim C7: opening a fresh session and then closing that same session
restores the registry state, hence the distinct-party count, and the `count`
event the disconnect handler broadcasts to the remaining sessions carries the
count from before the open. -/
theorem open_close_net_zero (s : Reg) (a : Addr) (sid : Sid)
    (hv : ∀ p ∈ s, p.2 ≠ []) (hf : ∀ p ∈ s, sid ∉ p.2) :
    regClose (regOpen s a sid) a sid = s ∧
    partyCount (regClose (regOpen s a sid) a sid) = partyCount s ∧
    (disconnectHandler (regOpen s a sid) a sid).2 =
      (Target.everyone, Event.countEv (partyCount s)) := by
  have hmain := regClose_regOpen s a sid hv hf
  refine ⟨hmain, by rw [hmain], ?_⟩
  simp only [disconnectHandler, hmain]

/-- Witness for C7: from the state with one session of address `b`, opening
session `1` of address `a` and closing it restores the state, and the
broadcast `count` event carries the old count of 1. -/
theorem open_close_net_zero_witness :
    (∀ p ∈ ([("b", ["9"])] : Reg), p.2 ≠ []) ∧
    (∀ p ∈ ([("b", ["9"])] : Reg), "1" ∉ p.2) ∧
    regClose (regOpen [("b", ["9"])] "a" "1") "a" "1" = [("b", ["9"])] ∧
    (disconnectHandler (regOpen [("b", ["9"])] "a" "1") "a" "1").2 =
      (Target.everyone, Event.countEv 1) := by
  refine ⟨by decide, by decide, ?_, ?_⟩
  · exact (open_close_net_zero [("b", ["9"])] "a" "1" (by decide) (by decide)).1
  · exact (open_close_net_zero [("b", ["9"])] "a" "1" (by decide) (by decide)).2.2

/-! ### Concrete inputs used by witnesses and counterexamples -/

def dbEmpty : DB := ⟨[], 1, 0⟩

def dbOne : DB := ⟨[⟨1, "Wash the dishes", none, false, "medium", none, 0⟩], 2, 1⟩

def rec1 : Todo := ⟨1, "Wash the dishes", none, false, "medium", none, 0⟩

def inputPlain : CreateInput := ⟨"Buy milk now", none, none, none, none⟩

def inputCompleteTrue : CreateInput := ⟨"Buy milk now", none, some true, none, none⟩

def recPlain : Todo := ⟨1, "Buy milk now", none, false, "medium", none, 0⟩

def noUpdates : UpdateFields := ⟨none, none, none, none, none⟩

/-! ### Claims about the mutation surfaces -/

/-- Claim C1, evaluated at the failing input: the HTTP `POST /todos` handler
accepts the request (status 201 with the saved record as `data`) while
issuing no emission at all, so a session open at that moment receives no
`added` broadcast, contrary to the claimed Publish-to-all after every
successful request/response write. -/
theorem http_post_emits_nothing :
    (httpPostTodo dbEmpty inputPlain).status = 201 ∧
    (httpPostTodo dbEmpty inputPlain).data ≠ none ∧
    (httpPostTodo dbEmpty inputPlain).emitted = [] ∧
    deliveredTo "" "C" (httpPostTodo dbEmpty inputPlain).emitted = [] := by
  decide

/-- Claim C4: a successful session-surface add/update/delete delivers exactly
one acknowledgment event to the originating session — never the broadcast copy
of its own mutation — and exactly one corresponding event to every other open
session. -/
theorem session_mutation_exactly_once (db : DB) (i : CreateInput) (id : Nat)
    (u : UpdateFields) (o r : Sid) (hr : r ≠ o) :
    (deliveredTo o o (socketAdd db i).2.2 = [Event.added (socketAdd db i).2.1] ∧
     deliveredTo o r (socketAdd db i).2.2 = [Event.added (socketAdd db i).2.1]) ∧
    (∀ t, findTodo db id = some t →
      deliveredTo o o (socketUpdate db id u).2 = [Event.updated (applySet t u)] ∧
      deliveredTo o r (socketUpdate db id u).2 = [Event.updated (applySet t u)]) ∧
    (∀ t, findTodo db id = some t →
      deliveredTo o o (socketDelete db id).2 = [Event.deleted id] ∧
      deliveredTo o r (socketDelete db id).2 = [Event.deleted id]) := by
  refine ⟨⟨?_, ?_⟩, fun t ht => ⟨?_, ?_⟩, fun t ht => ⟨?_, ?_⟩⟩
  · simp [socketAdd, deliveredTo]
  · simp [socketAdd, deliveredTo, hr]
  · simp [socketUpdate, ht, deliveredTo]
  · simp [socketUpdate, ht, deliveredTo, hr]
  · simp [socketDelete, ht, deliveredTo]
  · simp [socketDelete, ht, deliveredTo, hr]

/-- Witness for C4: with the one-record store, session A adding and updating
record 1 gets exactly its acknowledgments while session B gets exactly the
broadcast copies. -/
theorem session_mutation_exactly_once_witness :
    ("B" : Sid) ≠ "A" ∧
    findTodo dbOne 1 = some rec1 ∧
    deliveredTo "A" "A" (socketAdd dbOne inputPlain).2.2 =
      [Event.added (socketAdd dbOne inputPlain).2.1] ∧
    deliveredTo "A" "B" (socketUpdate dbOne 1 noUpdates).2 =
      [Event.updated (applySet rec1 noUpdates)] := by
  refine ⟨by decide, by decide, ?_, ?_⟩
  · exact (session_mutation_exactly_once dbOne inputPlain 1 noUpdates "A" "B"
      (by decide)).1.1
  · exact ((session_mutation_exactly_once dbOne inputPlain 1 noUpdates "A" "B"
      (by decide)).2.1 rec1 (by decide)).2

/-- Claim C5: a session-surface update or delete naming a missing id leaves
the store unchanged, sends exactly one error event to the originating session,
and sends nothing (in particular no updated/deleted event) to any other
session. -/
theorem session_missing_id_error_only (db : DB) (id : Nat) (u : UpdateFields)
    (o : Sid) (h : findTodo db id = none) :
    socketUpdate db id u = (db, [(Target.caller, Event.errEv "Todo not found")]) ∧
    socketDelete db id = (db, [(Target.caller, Event.errEv "Todo not found")]) ∧
    deliveredTo o o (socketUpdate db id u).2 = [Event.errEv "Todo not found"] ∧
    (∀ r, r ≠ o → deliveredTo o r (socketUpdate db id u).2 = []) ∧
    (∀ r, r ≠ o → deliveredTo o r (socketDelete db id).2 = []) := by
  refine ⟨by simp [socketUpdate, h], by simp [socketDelete, h],
    by simp [socketUpdate, h, deliveredTo], ?_, ?_⟩
  · intro r hrne
    simp [socketUpdate, h, deliveredTo, hrne]
  · intro r hrne
    simp [socketDelete, h, deliveredTo, hrne]

/-- Witness for C5: updating the missing id 5 in the empty store errors to the
caller only and delivers nothing to session B. -/
theorem session_missing_id_error_only_witness :
    findTodo dbEmpty 5 = none ∧
    socketUpdate dbEmpty 5 noUpdates =
      (dbEmpty, [(Target.caller, Event.errEv "Todo not found")]) ∧
    deliveredTo "A" "B" (socketDelete dbEmpty 5).2 = [] := by
  refine ⟨by decide, ?_, ?_⟩
  · exact (session_missing_id_error_only dbEmpty 5 noUpdates "A" (by decide)).1
  · exact (session_missing_id_error_only dbEmpty 5 noUpdates "A"
      (by decide)).2.2.2.2 "B" (by decide)

/-- Claim C8: a session-surface create delivers to the originator and to any
other session one `added` event each, both carrying the identical saved record
(`savedTodo`), which is the record the store persisted with the generated
id. -/
theorem session_create_identical_record (db : DB) (i : CreateInput) (A B : Sid)
    (hAB : B ≠ A) :
    deliveredTo A A (socketAdd db i).2.2 = [Event.added (socketAdd db i).2.1] ∧
    deliveredTo A B (socketAdd db i).2.2 = [Event.added (socketAdd db i).2.1] ∧
    (socketAdd db i).2.1 ∈ (socketAdd db i).1.todos ∧
    (socketAdd db i).2.1.id = db.nextId := by
  refine ⟨by simp [socketAdd, deliveredTo],
    by simp [socketAdd, deliveredTo, hAB], ?_, by simp [socketAdd, saveNew]⟩
  simp [socketAdd, saveNew]

/-- Witness for C8 with sessions A and B over the empty store. -/
theorem session_create_identical_record_witness :
    ("B" : Sid) ≠ "A" ∧
    deliveredTo "A" "A" (socketAdd dbEmpty inputPlain).2.2 =
      [Event.added (socketAdd dbEmpty inputPlain).2.1] ∧
    deliveredTo "A" "B" (socketAdd dbEmpty inputPlain).2.2 =
      [Event.added (socketAdd dbEmpty inputPlain).2.1] := by
  refine ⟨by decide, ?_, ?_⟩
  · exact (session_create_identical_record dbEmpty inputPlain "A" "B"
      (by decide)).1
  · exact (session_create_identical_record dbEmpty inputPlain "A" "B"
      (by decide)).2.1

/-- Claim C9: the unfiltered HTTP list endpoint and the socket `all` command
return the same list, which is a permutation of the stored records sorted by
creation time descending. -/
theorem list_surfaces_same_order (db : DB) :
    (httpGetTodos db none none).2 = sortByCreatedDesc db.todos ∧
    socketAll db = [(Target.caller, Event.allEv (sortByCreatedDesc db.todos))] ∧
    List.Sorted createdDescRel (sortByCreatedDesc db.todos) ∧
    (sortByCreatedDesc db.todos).Perm db.todos := by
  refine ⟨?_, rfl, ?_, ?_⟩
  · simp [httpGetTodos]
  · exact List.sorted_insertionSort createdDescRel db.todos
  · exact List.perm_insertionSort createdDescRel db.todos

/-- Counterexample to claim C10 as stated: for the create input that sends
`complete = true`, the socket `add` handler stores `complete = false` while
the HTTP `POST` handler accepts the same input (201) and stores
`complete = true`, so the two surfaces do not produce the same `complete`
value for every create input. -/
theorem create_defaults_counterexample :
    (socketAdd dbEmpty inputCompleteTrue).2.1.complete = false ∧
    (httpPostTodo dbEmpty inputCompleteTrue).status = 201 ∧
    ((httpPostTodo dbEmpty inputCompleteTrue).data.map Todo.complete) = some true ∧
    ¬ ((httpPostTodo dbEmpty inputCompleteTrue).data.map Todo.complete =
        some (socketAdd dbEmpty inputCompleteTrue).2.1.complete) := by
  decide

/-- Claim C10 as amended: the socket `add` always stores `complete = false`
and defaults `priority` to `medium` when omitted; the HTTP `POST` applies the
same defaults, so the two surfaces agree on `priority` for every accepted
input and on `complete` for every input that does not explicitly send
`complete = true`. -/
theorem create_defaults_amended (db : DB) (i : CreateInput) :
    (socketAdd db i).2.1.complete = false ∧
    (i.priority = none → (socketAdd db i).2.1.priority = "medium") ∧
    (∀ rec, (httpPostTodo db i).data = some rec →
      rec.priority = (socketAdd db i).2.1.priority ∧
      (i.complete ≠ some true → rec.complete = false)) := by
  refine ⟨rfl, ?_, ?_⟩
  · intro hp
    simp [socketAdd, saveNew, jsOrStr, hp]
  · intro rec hrec
    by_cases hv : postValid i
    · simp only [httpPostTodo, if_pos hv] at hrec
      have hrec2 : rec = (saveNew db (trimString i.title) (i.description.map trimString)
          (jsOrBool i.complete false) (jsOrStr i.priority "medium") i.dueDate).2 := by
        simpa using hrec.symm
      constructor
      · rw [hrec2]
        simp [socketAdd, saveNew]
      · intro hct
        rw [hrec2]
        simp only [saveNew]
        cases hc : i.complete with
        | none => simp [jsOrBool]
        | some b =>
          cases b with
          | false => simp [jsOrBool]
          | true => exact absurd (by rw [hc]) hct
    · simp only [httpPostTodo, if_neg hv] at hrec
      exact absurd hrec (by simp)

/-- Witness for the amended C10 at the plain input omitting both `complete`
and `priority`: both surfaces yield `priority = "medium"` and
`complete = false`. -/
theorem create_defaults_amended_witness :
    inputPlain.priority = none ∧
    (httpPostTodo dbEmpty inputPlain).data = some recPlain ∧
    inputPlain.complete ≠ some true ∧
    (socketAdd dbEmpty inputPlain).2.1.priority = "medium" ∧
    recPlain.priority = (socketAdd dbEmpty inputPlain).2.1.priority ∧
    recPlain.complete = false := by
  refine ⟨by decide, by decide, by decide, ?_, ?_, ?_⟩
  · exact (create_defaults_amended dbEmpty inputPlain).2.1 (by decide)
  · exact ((create_defaults_amended dbEmpty inputPlain).2.2 recPlain
      (by decide)).1
  · exact ((create_defaults_amended dbEmpty inputPlain).2.2 recPlain
      (by decide)).2 (by decide)

end CrudSync
